import Mathlib

/-!
Verification of the RAG Factory ingestion core against its specification.

The development embeds, as executable Lean definitions, the components of the
repository that the checked properties are about:

* `backend/processors/adaptive_chunker.py` — the size-adaptive document
  chunker (`AdaptiveChunker.determine_strategy`, `chunk_document`,
  `_create_single_chunk`, `_standard_chunking`, `_recursive_chunking`,
  `_multi_level_chunking`, module-level `chunk_text`), including faithful
  character-level models of the two `re.split` patterns the chunker uses.
* `backend/services/rate_limiter.py` — `RateLimiter._calculate_wait_time`,
  `RateLimiter._check_time_window`, `record_request`, `record_success`,
  `record_429_response` (time modelled as exact rationals).
* `backend/services/scheduler_service.py` — `parse_schedule_config`.
* `backend/workers/ingestion_tasks.py` — the per-document loop of
  `ingest_documents_from_source` together with `is_document_processed`,
  `track_document` and `mark_document_processed` (the database tables are
  modelled as in-memory association lists; external effects such as
  embedding generation and sink writes are modelled by a per-document
  outcome oracle).

Python strings are modelled as `List Char`; Python `time.time()` floats as
`ℚ`; fallible parsing as `Except`.
-/

namespace RagFactory

/-! ### Python character/string helpers (text as lists of characters) -/

/-- Python regex `\s` over ASCII text: space, tab, newline, carriage return,
vertical tab, form feed. -/
def isPySpace (c : Char) : Bool :=
  c == ' ' || c == '\t' || c == '\n' || c == '\r' || c == '\x0b' || c == '\x0c'

/-- Python regex `\d` over ASCII text. -/
def isDigitChar (c : Char) : Bool :=
  '0' ≤ c && c ≤ '9'

/-- Membership in the character class `[A-Z\s]` of the section-header pattern. -/
def isSecClassChar (c : Char) : Bool :=
  ('A' ≤ c && c ≤ 'Z') || isPySpace c

/-- Python `str.strip()` over ASCII text: drop whitespace at both ends. -/
def pyStrip (s : List Char) : List Char :=
  ((s.dropWhile isPySpace).reverse.dropWhile isPySpace).reverse

/-- Whether `needle` is a prefix of `hay` (boolean, for decidable statements). -/
def startsWithSeq : List Char → List Char → Bool
  | [], _ => true
  | _ :: _, [] => false
  | a :: as, b :: bs => a == b && startsWithSeq as bs

/-- Whether `needle` occurs as a contiguous subsequence of `hay`. -/
def containsSeq (needle hay : List Char) : Bool :=
  (List.range (hay.length + 1)).any (fun i => startsWithSeq needle (hay.drop i))

/-! ### The chunker's two `re.split` patterns, modelled character by character

`_recursive_chunking` splits on `\n\s*\n` (blank-line boundaries) and
`_multi_level_chunking` splits on `(?:^|\n)(?:\d+\.|[A-Z\s]{10,})\n`
(numbered or long ALL-CAPS heading lines).  `re.split` with a pattern that
has no capture groups returns the pieces BETWEEN matches and drops the
matched separators.  The models below reproduce Python's leftmost-match
scan with greedy backtracking for these two concrete patterns. -/

/-- Match length of the branch `\d+\.` followed by the pattern's final `\n`,
anchored at the start of `s`: a maximal nonempty digit run, then a dot, then
a newline. -/
def alt1Len (s : List Char) : Option Nat :=
  let d := (s.takeWhile isDigitChar).length
  if 1 ≤ d && s.getD d ' ' == '.' && s.getD (d + 1) ' ' == '\n'
  then some (d + 2) else none

/-- Match length of the branch `[A-Z\s]{10,}` followed by the pattern's final
`\n`, anchored at the start of `s`.  The greedy class run backtracks until
the next character is a newline; since `\n` is itself in the class, this is
the largest `k ≥ 10` such that the `k`-th character of the maximal class run
is a newline (the class then consumes `k` characters and the newline is the
`k`-th). -/
def alt2Len (s : List Char) : Option Nat :=
  let run := s.takeWhile isSecClassChar
  match ((List.range run.length).filter
      (fun i => decide (10 ≤ i) && (run.getD i ' ' == '\n'))).getLast? with
  | some k => some (k + 1)
  | none => none

/-- Match length of `(?:\d+\.|[A-Z\s]{10,})\n` anchored at the start of `s`;
Python tries the alternatives left to right. -/
def matchAlts (s : List Char) : Option Nat :=
  alt1Len s <|> alt2Len s

/-- Leftmost match of the section pattern `(?:^|\n)(?:\d+\.|[A-Z\s]{10,})\n`
in `s`, as (offset, length).  `allowCaret` is true only at absolute position
0 of the scanned string, where the zero-width `^` branch applies; at every
position a leading `\n` may serve instead as the `(?:^|\n)` prefix. -/
def secFind : Bool → List Char → Option (Nat × Nat)
  | _, [] => none
  | allowCaret, c :: rest =>
    let caretTry : Option (Nat × Nat) :=
      if allowCaret then (matchAlts (c :: rest)).map (fun n => (0, n)) else none
    let nlTry : Option (Nat × Nat) :=
      if c == '\n' then (matchAlts rest).map (fun n => (0, n + 1)) else none
    (caretTry <|> nlTry) <|> (secFind false rest).map (fun p => (p.1 + 1, p.2))

/-- Match length of the paragraph pattern `\n\s*\n` anchored at the start of
`s`: a newline, a greedy whitespace run backtracked until the next character
is a newline. -/
def paraMatchLen : List Char → Option Nat
  | [] => none
  | c :: rest =>
    if c == '\n' then
      match ((List.range (rest.takeWhile isPySpace).length).filter
          (fun i => (rest.takeWhile isPySpace).getD i ' ' == '\n')).getLast? with
      | some k => some (k + 2)
      | none => none
    else none

/-- Leftmost match of `\n\s*\n` in `s`, as (offset, length). -/
def paraFind : List Char → Option (Nat × Nat)
  | [] => none
  | c :: rest =>
    match paraMatchLen (c :: rest) with
    | some n => some (0, n)
    | none => (paraFind rest).map (fun p => (p.1 + 1, p.2))

/-- The scan loop of `re.split(section_pattern, content)`.  Every separator
match consumes at least one character, so a scan can restart at most
`s.length` times; the explicit fuel (always called with `s.length + 1`) only
makes the recursion structural and is never exhausted. -/
def secSplitGo : Nat → Bool → List Char → List (List Char)
  | 0, _, s => [s]
  | fuel + 1, allowCaret, s =>
    match secFind allowCaret s with
    | none => [s]
    | some (off, len) => s.take off :: secSplitGo fuel false (s.drop (off + len))

/-- `re.split(r'(?:^|\n)(?:\d+\.|[A-Z\s]{10,})\n', content)` from
`_multi_level_chunking` (adaptive_chunker.py line 312). -/
def secSplit (s : List Char) : List (List Char) :=
  secSplitGo (s.length + 1) true s

/-- The scan loop of `re.split(r'\n\s*\n', content)`, fueled like
`secSplitGo`. -/
def paraSplitGo : Nat → List Char → List (List Char)
  | 0, s => [s]
  | fuel + 1, s =>
    match paraFind s with
    | none => [s]
    | some (off, len) => s.take off :: paraSplitGo fuel (s.drop (off + len))

/-- `re.split(r'\n\s*\n', content)` from `_recursive_chunking`
(adaptive_chunker.py line 230). -/
def paraSplit (s : List Char) : List (List Char) :=
  paraSplitGo (s.length + 1) s

/-! ### AdaptiveChunker (backend/processors/adaptive_chunker.py)

A chunk dict's `metadata` carries, besides the keys spread from the source
document's own metadata (which no checked property mentions and which are
omitted here), the fields `chunk_index`, `total_chunks`, `chunking_strategy`
and `source_document_id`; those are modelled as structure fields. -/

structure Chunk where
  id : String
  content : List Char
  chunk_index : Nat
  total_chunks : Option Nat
  chunking_strategy : String
  source_document_id : String
deriving DecidableEq, Repr

/-- The document dict as consumed by `chunk_document`: only `id` and
`content` are read (plus `metadata`, omitted as above). -/
structure PyDocument where
  id : String
  content : List Char
deriving DecidableEq, Repr

/-- Class-level constants of `AdaptiveChunker`. -/
def SMALL_CHUNK_SIZE : Nat := 1000

def MEDIUM_CHUNK_SIZE : Nat := 1500

def LARGE_CHUNK_SIZE : Nat := 2000

/-- `AdaptiveChunker.__init__` state: the three size thresholds and the
overlap, with the class defaults. -/
structure AdaptiveChunker where
  small_threshold : Nat := 2000
  medium_threshold : Nat := 5000
  large_threshold : Nat := 15000
  overlap : Nat := 200
deriving DecidableEq, Repr

/-- `AdaptiveChunker.determine_strategy` (lines 59-78). -/
def determine_strategy (ck : AdaptiveChunker) (content : List Char) : String :=
  if content.length ≤ ck.small_threshold then "none"
  else if content.length ≤ ck.medium_threshold then "standard"
  else if content.length ≤ ck.large_threshold then "recursive"
  else "multi_level"

/-- Python `x or default` for the optional `chunk_size`/`overlap` arguments:
`None` and `0` are both falsy and fall back to the default. -/
def pyOrNat (o : Option Nat) (d : Nat) : Nat :=
  match o with
  | none => d
  | some v => if v = 0 then d else v

/-- The second pass `for chunk in chunks: chunk['metadata']['total_chunks'] = total`
run at the end of each splitting strategy. -/
def setTotals (l : List Chunk) : List Chunk :=
  l.map (fun c => { c with total_chunks := some l.length })

/-- `AdaptiveChunker._create_single_chunk` (lines 138-158). -/
def create_single_chunk (doc : PyDocument) : List Chunk :=
  [{ id := doc.id ++ "_chunk_0", content := doc.content, chunk_index := 0,
     total_chunks := some 1, chunking_strategy := "none",
     source_document_id := doc.id }]

/-- The `while start < len(content)` loop of `_standard_chunking`
(lines 179-199); each step emits `content[start:start+chunk_size]` and
advances by `chunk_size - overlap`.  The loop terminates only when
`overlap < chunk_size` (the source would loop forever otherwise), so that
precondition is part of the guard. -/
def standardAux (docId : String) (content : List Char) (size ov : Nat)
    (start idx : Nat) : List Chunk :=
  if h : start < content.length ∧ ov < size then
    { id := docId ++ "_chunk_" ++ Nat.repr idx,
      content := (content.drop start).take size,
      chunk_index := idx, total_chunks := none,
      chunking_strategy := "standard", source_document_id := docId } ::
      standardAux docId content size ov (start + (size - ov)) (idx + 1)
  else []
termination_by content.length - start
decreasing_by simp_wf; omega

/-- `AdaptiveChunker._standard_chunking` (lines 160-206). -/
def standard_chunking (doc : PyDocument) (size ov : Nat) : List Chunk :=
  setTotals (standardAux doc.id doc.content size ov 0 0)

/-- Python `current_chunk[-overlap:]`: the last `overlap` characters, except
that `s[-0:]` is the whole string. -/
def pyLastSlice (ov : Nat) (s : List Char) : List Char :=
  if ov = 0 then s else s.drop (s.length - ov)

/-- One chunk dict as built inside `_recursive_chunking`. -/
def recChunk (docId : String) (idx : Nat) (content : List Char) : Chunk :=
  { id := docId ++ "_chunk_" ++ Nat.repr idx, content := content,
    chunk_index := idx, total_chunks := none,
    chunking_strategy := "recursive", source_document_id := docId }

/-- The `for para in paragraphs` loop of `_recursive_chunking`
(lines 236-277), including the trailing `if current_chunk` flush.  A chunk
is closed when appending the next paragraph would exceed `chunk_size` and
the accumulator is nonempty; the next accumulator is seeded with the
trailing `overlap` characters of the closed chunk (Python slice semantics
via `pyLastSlice`) joined to the new paragraph by a blank line. -/
def recursiveAux (docId : String) (size ov : Nat) :
    List (List Char) → List Char → Nat → List Chunk
  | [], current, idx =>
    if current ≠ [] then [recChunk docId idx (pyStrip current)] else []
  | para :: rest, current, idx =>
    if size < current.length + para.length ∧ current ≠ [] then
      recChunk docId idx (pyStrip current) ::
        recursiveAux docId size ov rest
          (if ov < current.length then pyLastSlice ov current ++ '\n' :: '\n' :: para
           else para)
          (idx + 1)
    else
      recursiveAux docId size ov rest
        (if current ≠ [] then current ++ '\n' :: '\n' :: para else para) idx

/-- `AdaptiveChunker._recursive_chunking` (lines 208-284). -/
def recursive_chunking (docId : String) (content : List Char) (size ov : Nat) :
    List Chunk :=
  setTotals (recursiveAux docId size ov (paraSplit content) [] 0)

/-- The renumbering loop of `_multi_level_chunking` (lines 337-342): each
chunk of a recursively-chunked section gets the running global index as its
id/`chunk_index`, strategy `multi_level` and the original document id.  Its
`total_chunks` (set by `_recursive_chunking` to the section-local total) is
left alone here and overwritten by the final `setTotals` pass. -/
def renumber (docId : String) (startIdx : Nat) (scs : List Chunk) : List Chunk :=
  scs.enum.map (fun p =>
    { p.2 with
      id := docId ++ "_chunk_" ++ Nat.repr (startIdx + p.1),
      chunk_index := startIdx + p.1,
      chunking_strategy := "multi_level",
      source_document_id := docId })

/-- The `for section in sections` loop of `_multi_level_chunking`
(lines 319-357): whitespace-only sections are skipped; a section longer than
`2 x chunk_size` is handed to `_recursive_chunking` and renumbered; any
other section becomes a single chunk of its stripped text. -/
def multiAux (docId : String) (size ov : Nat) :
    List (List Char) → Nat → List Chunk
  | [], _ => []
  | sec :: rest, idx =>
    if pyStrip sec = [] then multiAux docId size ov rest idx
    else if size * 2 < sec.length then
      renumber docId idx (recursive_chunking (docId ++ "_section") sec size ov) ++
        multiAux docId size ov rest
          (idx + (recursive_chunking (docId ++ "_section") sec size ov).length)
    else
      { id := docId ++ "_chunk_" ++ Nat.repr idx, content := pyStrip sec,
        chunk_index := idx, total_chunks := none,
        chunking_strategy := "multi_level", source_document_id := docId } ::
        multiAux docId size ov rest (idx + 1)

/-- `AdaptiveChunker._multi_level_chunking` (lines 286-364). -/
def multi_level_chunking (docId : String) (content : List Char)
    (size ov : Nat) : List Chunk :=
  setTotals (multiAux docId size ov (secSplit content) 0)

/-- `AdaptiveChunker.chunk_document` (lines 80-136): empty content yields no
chunks; otherwise the strategy chosen from the content length dispatches to
one of the four splitters, with `chunk_size or STRATEGY_DEFAULT` and
`overlap or self.overlap` as effective parameters. -/
def chunk_document (ck : AdaptiveChunker) (doc : PyDocument)
    (chunkSize overlapArg : Option Nat) : List Chunk :=
  if doc.content = [] then []
  else
    if determine_strategy ck doc.content = "none" then create_single_chunk doc
    else if determine_strategy ck doc.content = "standard" then
      standard_chunking doc (pyOrNat chunkSize SMALL_CHUNK_SIZE)
        (pyOrNat overlapArg ck.overlap)
    else if determine_strategy ck doc.content = "recursive" then
      recursive_chunking doc.id doc.content (pyOrNat chunkSize MEDIUM_CHUNK_SIZE)
        (pyOrNat overlapArg ck.overlap)
    else
      multi_level_chunking doc.id doc.content (pyOrNat chunkSize LARGE_CHUNK_SIZE)
        (pyOrNat overlapArg ck.overlap)

/-- The `while start < len(text)` loop of the module-level `chunk_text`
(lines 380-386), with the same `overlap < chunk_size` termination
precondition as `_standard_chunking`. -/
def chunkTextAux (text : List Char) (size ov : Nat) (start : Nat) :
    List (List Char) :=
  if h : start < text.length ∧ ov < size then
    (text.drop start).take size :: chunkTextAux text size ov (start + (size - ov))
  else []
termination_by text.length - start
decreasing_by simp_wf; omega

/-- Module-level `chunk_text` (adaptive_chunker.py lines 368-388). -/
def chunk_text (text : List Char) (size ov : Nat) : List (List Char) :=
  chunkTextAux text size ov 0

/-! ### RateLimiter (backend/services/rate_limiter.py)

Timestamps (`time.time()` floats) are modelled as exact rationals.  The
limiter keeps ONE deque `request_history` shared by all windows; the
source's `_check_time_window` destructively pops entries older than the
window it is currently checking from that shared deque. -/

structure RateLimitConfig where
  requests_per_day : Option Nat := none
  requests_per_hour : Option Nat := none
  requests_per_minute : Option Nat := none
  min_delay : ℚ := 0
  burst_limit : Nat := 1
  retry_after_429 : Bool := true
  backoff_factor : ℚ := 2
deriving DecidableEq

structure RateLimiterState where
  request_history : List ℚ := []
  last_request_time : Option ℚ := none
  consecutive_429s : Nat := 0
  current_backoff_delay : ℚ := 0
deriving DecidableEq

/-- `RateLimiter._check_time_window` (lines 169-202): evict entries older
than `now - window_seconds` from the front of the (shared) deque, then, if
the remaining count has reached the cap, wait until the oldest remaining
request leaves the window.  Returns the wait together with the deque as the
eviction left it.  (With an empty deque at the cap the source would raise an
IndexError; that case is unreachable from `_calculate_wait_time`, which only
passes caps that are nonzero, and is mapped to a zero wait here.) -/
def check_time_window (now : ℚ) (window_seconds : ℚ) (max_requests : Nat)
    (history : List ℚ) : ℚ × List ℚ :=
  let history := history.dropWhile (fun t => t < now - window_seconds)
  if max_requests ≤ history.length then
    match history with
    | [] => (0, [])
    | oldest :: _ => (max 0 (oldest + window_seconds - now), history)
  else (0, history)

/-- `RateLimiter._calculate_wait_time` (lines 129-167): collect the
independent constraints (minimum inter-request delay; the minute, hour and
day windows, checked in that order against the one shared deque; current
backoff) and return their maximum (0 when none applies).  Python truthiness:
a `last_request_time` of `0.0` and a window cap of `0` are falsy and skip
their checks.  Every collected wait is positive, so folding `max` over `0`
equals the source's `max(wait_times)`. -/
def calculate_wait_time (now : ℚ) (cfg : RateLimitConfig)
    (st : RateLimiterState) : ℚ × RateLimiterState :=
  let waits0 : List ℚ :=
    match st.last_request_time with
    | some t =>
      if t ≠ 0 ∧ 0 < cfg.min_delay ∧ now - t < cfg.min_delay
      then [cfg.min_delay - (now - t)] else []
    | none => []
  let step : Option Nat → ℚ → List ℚ × List ℚ → List ℚ × List ℚ :=
    fun cap window acc =>
      match cap with
      | some n =>
        if n ≠ 0 then
          let r := check_time_window now window n acc.2
          (if 0 < r.1 then acc.1 ++ [r.1] else acc.1, r.2)
        else acc
      | none => acc
  let acc1 := step cfg.requests_per_minute 60 (waits0, st.request_history)
  let acc2 := step cfg.requests_per_hour 3600 acc1
  let acc3 := step cfg.requests_per_day 86400 acc2
  let waits := if 0 < st.current_backoff_delay
    then acc3.1 ++ [st.current_backoff_delay] else acc3.1
  (waits.foldl max 0, { st with request_history := acc3.2 })

/-- `RateLimiter.record_request` (lines 204-208). -/
def record_request (now : ℚ) (st : RateLimiterState) : RateLimiterState :=
  { st with request_history := st.request_history ++ [now],
            last_request_time := some now }

/-- `RateLimiter.record_success` (lines 210-218). -/
def record_success (st : RateLimiterState) : RateLimiterState :=
  if 0 < st.consecutive_429s then
    { st with consecutive_429s := 0, current_backoff_delay := 0 }
  else st

/-- `RateLimiter.record_429_response` (lines 220-244); a `retry_after` of
`0` is falsy in Python and falls through to exponential backoff. -/
def record_429_response (cfg : RateLimitConfig) (retry_after : Option Nat)
    (st : RateLimiterState) : RateLimiterState :=
  let n := st.consecutive_429s + 1
  let backoff : ℚ :=
    match retry_after with
    | some r => if r ≠ 0 then (r : ℚ) else cfg.backoff_factor ^ n
    | none => cfg.backoff_factor ^ n
  { st with consecutive_429s := n, current_backoff_delay := backoff }

/-! ### Scheduler (backend/services/scheduler_service.py) -/

/-- The dict shapes returned by `parse_schedule_config`: interval triggers
with a minutes/hours/days field, the fixed cron dicts for daily/weekly, and
the five string fields of an explicit cron expression. -/
inductive ScheduleConfig where
  | intervalMinutes (n : Int)
  | intervalHours (n : Int)
  | intervalDays (n : Int)
  | cronDailyMidnight
  | cronWeeklyMonday
  | cron5 (minute hour day month day_of_week : String)
deriving DecidableEq, Repr

/-- Python `str.startswith(pre)` (over the character list). -/
def pyStartsWith (pre s : List Char) : Bool :=
  match pre, s with
  | [], _ => true
  | _ :: _, [] => false
  | a :: as, b :: bs => a == b && pyStartsWith as bs

/-- Python `int(s)` on the digit strings reachable from
`parse_schedule_config`: an optional sign followed by one or more digits
(the source's `int()` additionally strips whitespace and allows embedded
underscores; no property checked here exercises those inputs). -/
def pyInt (s : List Char) : Except String Int :=
  let core : List Char → Option Nat := fun ds =>
    if ds ≠ [] ∧ ds.all isDigitChar then
      some (ds.foldl (fun acc c => acc * 10 + (c.toNat - '0'.toNat)) 0)
    else none
  match s with
  | '-' :: ds =>
    match core ds with
    | some n => .ok (-(n : Int))
    | none => .error "invalid literal for int"
  | '+' :: ds =>
    match core ds with
    | some n => .ok (n : Int)
    | none => .error "invalid literal for int"
  | ds =>
    match core ds with
    | some n => .ok (n : Int)
    | none => .error "invalid literal for int"

/-- Python `str.split()` with no argument: split on whitespace runs,
discarding empty pieces. -/
def pyWhitespaceSplit (s : List Char) : List String :=
  ((s.splitOnP isPySpace).map String.mk).filter (fun p => p ≠ "")

/-- The trailing `cron:` check and the final fallthrough of
`parse_schedule_config` (lines 68-83): a `cron:` prefix with exactly five
whitespace-separated fields yields a cron dict; EVERYTHING else reaches the
`logger.warning` line and returns `None` — the same value returned for
`"manual"`. -/
def parseScheduleRest (s : String) : Except String (Option ScheduleConfig) :=
  if pyStartsWith "cron:".data s.data then
    let parts := pyWhitespaceSplit (s.data.drop 5)
    if h : parts.length = 5 then
      .ok (some (.cron5 (parts.get ⟨0, by omega⟩) (parts.get ⟨1, by omega⟩)
        (parts.get ⟨2, by omega⟩) (parts.get ⟨3, by omega⟩)
        (parts.get ⟨4, by omega⟩)))
    else .ok none
  else .ok none

/-- `parse_schedule_config` (scheduler_service.py lines 30-83).  `None`
(here `Except.ok none`) means "no schedule"; `add_source_schedule` treats it
exactly like `"manual"`.  `Except.error` models an uncaught Python
exception (only `int()` on a malformed interval count raises).  An
`interval:` string whose unit suffix is not m/h/d falls through to the
cron check and then to the warning/`None` line, exactly as in the source. -/
def parse_schedule_config (s : String) : Except String (Option ScheduleConfig) :=
  if s = "" ∨ s = "manual" then .ok none
  else if s = "hourly" then .ok (some (.intervalHours 1))
  else if s = "daily" then .ok (some .cronDailyMidnight)
  else if s = "weekly" then .ok (some .cronWeeklyMonday)
  else if pyStartsWith "interval:".data s.data then
    let interval_str := (s.data.splitOnP (fun c => c == ':')).getD 1 []
    if interval_str.getLast? == some 'm' then
      (pyInt interval_str.dropLast).map (fun n => some (.intervalMinutes n))
    else if interval_str.getLast? == some 'h' then
      (pyInt interval_str.dropLast).map (fun n => some (.intervalHours n))
    else if interval_str.getLast? == some 'd' then
      (pyInt interval_str.dropLast).map (fun n => some (.intervalDays n))
    else parseScheduleRest s
  else parseScheduleRest s

/-! ### Ingestion worker (backend/workers/ingestion_tasks.py)

The per-document loop of `ingest_documents_from_source` (lines 226-319),
with its helpers `is_document_processed`, `track_document` and
`mark_document_processed`.  The `documents_tracking` table for the fixed
project is modelled as an in-memory list of (document_hash, status) records;
the hash function (`EmbeddingService.compute_content_hash`, a SHA-256 hex
digest of `title + " " + content`) is an arbitrary parameter `hashFn` —
every theorem below holds for every hash function.  External effects inside
the `try` block (target-DB existence check, embedding generation, sink
insertion, exceptions) are modelled by a per-document outcome oracle. -/

/-- A document as returned by a connector (`metadata` omitted; only the
fields read by the loop are modelled). -/
structure SrcDoc where
  id : String
  title : String
  content : String
deriving DecidableEq, Repr

/-- The externally-determined fate of one non-deduplicated document:
`targetExists` — `writer.document_exists` returns true (lines 243-247);
`success` — chunks are embedded and inserted (lines 249-302);
`failure` — an exception inside the `try` block (lines 304-311). -/
inductive DocOutcome where
  | targetExists
  | success
  | failure
deriving DecidableEq, Repr

/-- In-memory loop state: the three counters, the tracking table, and the
number of sink (`writer.insert_vectors`) calls made. -/
structure LoopState where
  processed : Nat := 0
  successful : Nat := 0
  failed : Nat := 0
  tracking : List (String × String) := []
  sinkWrites : Nat := 0
deriving DecidableEq, Repr

/-- `is_document_processed` (lines 362-389): is there a tracking record with
this hash and status `completed`? -/
def is_document_processed (tracking : List (String × String))
    (content_hash : String) : Bool :=
  tracking.any (fun r => r.1 == content_hash && r.2 == "completed")

/-- `track_document` (lines 392-430): `INSERT ... ON CONFLICT (project_id,
document_hash) DO NOTHING` — a record with status `processing` is added
only if no record with this hash exists yet. -/
def track_document (tracking : List (String × String))
    (content_hash : String) : List (String × String) :=
  if tracking.any (fun r => r.1 == content_hash) then tracking
  else tracking ++ [(content_hash, "processing")]

/-- `mark_document_processed` (lines 67-93): `UPDATE documents_tracking SET
status = ... WHERE project_id = ... AND document_hash = ...`. -/
def mark_document_processed (tracking : List (String × String))
    (content_hash : String) (status : String) : List (String × String) :=
  tracking.map (fun r => if r.1 == content_hash then (r.1, status) else r)

/-- The dedup key: `doc.get('title','') + ' ' + doc.get('content','')`
hashed (line 231-232). -/
def docHash (hashFn : String → String) (d : SrcDoc) : String :=
  hashFn (d.title ++ " " ++ d.content)

/-- One iteration of the `for doc in documents` loop (lines 226-319).
`processed` is incremented first (line 227).  If the hash already has a
`completed` tracking record the document is skipped by `continue`
(line 237): no other counter changes, no tracking change, no sink write —
and the per-document `update_job_progress` call at lines 313-319 is skipped
too.  Otherwise the document is tracked, and the outcome decides between
the target-exists skip (counted successful, no sink write), a successful
embed-and-insert (counted successful, one sink write), and a caught
exception (counted failed). -/
def processDoc (hashFn : String → String) (st : LoopState) (d : SrcDoc)
    (o : DocOutcome) : LoopState :=
  if is_document_processed st.tracking (docHash hashFn d) then
    { st with processed := st.processed + 1 }
  else
    match o with
    | .targetExists =>
      { st with processed := st.processed + 1,
                successful := st.successful + 1,
                tracking := mark_document_processed
                  (track_document st.tracking (docHash hashFn d))
                  (docHash hashFn d) "completed" }
    | .success =>
      { st with processed := st.processed + 1,
                successful := st.successful + 1,
                sinkWrites := st.sinkWrites + 1,
                tracking := mark_document_processed
                  (track_document st.tracking (docHash hashFn d))
                  (docHash hashFn d) "completed" }
    | .failure =>
      { st with processed := st.processed + 1,
                failed := st.failed + 1,
                tracking := mark_document_processed
                  (track_document st.tracking (docHash hashFn d))
                  (docHash hashFn d) "failed" }

/-- The whole per-document loop over the fetched documents, each paired with
its outcome. -/
def runLoop (hashFn : String → String) (st : LoopState)
    (pairs : List (SrcDoc × DocOutcome)) : LoopState :=
  pairs.foldl (fun st p => processDoc hashFn st p.1 p.2) st

/-- The job row fields the run leaves behind. -/
structure JobRow where
  status : String
  total_documents : Nat
  processed : Nat
  successful : Nat
  failed : Nat
  sinkWrites : Nat
deriving DecidableEq, Repr

/-- A full run of `ingest_documents_from_source` that reaches the end of the
document loop: `total_documents` is set to the fetched count (line 188), the
loop runs, and the final `update_job_progress` (lines 325-330)
unconditionally writes `status='completed'`. -/
def runJobRow (hashFn : String → String) (tracking0 : List (String × String))
    (pairs : List (SrcDoc × DocOutcome)) : JobRow :=
  let st := runLoop hashFn { tracking := tracking0 } pairs
  { status := "completed", total_documents := pairs.length,
    processed := st.processed, successful := st.successful,
    failed := st.failed, sinkWrites := st.sinkWrites }

/-- A run during which an external cancellation request (the API's `UPDATE
ingestion_jobs SET status='cancelled'`, api/main.py lines 642-681) lands at
the document boundary `cancelAt`.  The loop body (lines 226-319) never reads
the job's status, so the worker's computation does not depend on
`cancelAt` in any way, and the worker's final status write (line 327) is the
last one: the resulting row is exactly that of an uncancelled run. -/
def runWithExternalCancel (hashFn : String → String)
    (tracking0 : List (String × String))
    (pairs : List (SrcDoc × DocOutcome)) (cancelAt : Nat) : JobRow :=
  runJobRow hashFn tracking0 pairs

/-! ### Statement-level definitions -/

/-- Characters of a string literal. -/
def strChars (s : String) : List Char :=
  s.data

/-- The chunks of a list are indexed `k, k+1, k+2, ...` in list order. -/
def IndexedFrom (k : Nat) (l : List Chunk) : Prop :=
  ∀ i (h : i < l.length), l[i].chunk_index = k + i

/-- The chunk-list invariant of the spec: every chunk's `total_chunks` is
the length of the list and the `chunk_index` values are `0..N-1` in list
order. -/
def ChunkListOK (l : List Chunk) : Prop :=
  ∀ i (h : i < l.length),
    l[i].total_chunks = some l.length ∧ l[i].chunk_index = i

/-- Reassembly of a standard chunk list: the first chunk, then every later
chunk minus its first `ov` characters. -/
def joinOverlap (ov : Nat) : List (List Char) → List Char
  | [] => []
  | c :: rest => c ++ (rest.map (fun l => l.drop ov)).flatten

/-- Maximum of a list of naturals (0 for the empty list). -/
def listMaxNat (l : List Nat) : Nat :=
  l.foldr max 0

/-- The longest blank-line-free paragraph length over all sections of the
section split — the quantity that actually bounds multi-level chunk sizes. -/
def maxSectionPara (content : List Char) : Nat :=
  listMaxNat ((secSplit content).map
    (fun sec => listMaxNat ((paraSplit sec).map (fun p => p.length))))

/-- A 100-document fetch in which every document is distinct and every
per-document outcome is a success. -/
def hundredDocs : List (SrcDoc × DocOutcome) :=
  (List.range 100).map (fun i => (⟨Nat.repr i, Nat.repr i, "body"⟩, .success))

/-- A character that neither regex of the chunker can use: not a digit, not
in `[A-Z\s]` (hence not whitespace and not a newline). -/
def plainChar (c : Char) : Bool :=
  !(isDigitChar c || isSecClassChar c)

/-! ## Theorems -/

/-! ### Counter arithmetic of the per-document loop (C1) -/

theorem processDoc_processed (hashFn : String → String) (st : LoopState)
    (d : SrcDoc) (o : DocOutcome) :
    (processDoc hashFn st d o).processed = st.processed + 1 := by
  unfold processDoc
  split
  · rfl
  · split <;> rfl

theorem processDoc_counters_le (hashFn : String → String) (st : LoopState)
    (d : SrcDoc) (o : DocOutcome)
    (h : st.successful + st.failed ≤ st.processed) :
    (processDoc hashFn st d o).successful + (processDoc hashFn st d o).failed ≤
      (processDoc hashFn st d o).processed := by
  unfold processDoc
  split
  · simp; omega
  · split <;> (simp; omega)

theorem runLoop_processed (hashFn : String → String)
    (pairs : List (SrcDoc × DocOutcome)) :
    ∀ st : LoopState,
      (runLoop hashFn st pairs).processed = st.processed + pairs.length := by
  induction pairs with
  | nil => intro st; simp [runLoop]
  | cons p rest ih =>
    intro st
    have h1 := processDoc_processed hashFn st p.1 p.2
    have h2 := ih (processDoc hashFn st p.1 p.2)
    simp only [runLoop, List.foldl_cons] at *
    rw [h2, h1]
    simp [Nat.add_assoc, Nat.add_comm 1]

theorem runLoop_counters_le (hashFn : String → String)
    (pairs : List (SrcDoc × DocOutcome)) :
    ∀ st : LoopState, st.successful + st.failed ≤ st.processed →
      (runLoop hashFn st pairs).successful + (runLoop hashFn st pairs).failed ≤
        (runLoop hashFn st pairs).processed := by
  induction pairs with
  | nil => intro st h; simpa [runLoop] using h
  | cons p rest ih =>
    intro st h
    simpa only [runLoop, List.foldl_cons] using
      ih (processDoc hashFn st p.1 p.2) (processDoc_counters_le hashFn st p.1 p.2 h)

/-- C1.  CORRECTED.  The claimed equality `processedDocuments =
successfulDocuments + failedDocuments` fails on the dedup-skip path (see
`C1_counterexample`); what holds after every document, for every fetch, every
outcome sequence, every hash function and every prior tracking state, is
`successful + failed ≤ processed` together with
`processed = number of documents handled so far ≤ totalDocuments`. -/
theorem C1_counter_invariant (hashFn : String → String)
    (T0 : List (String × String)) (pairs : List (SrcDoc × DocOutcome))
    (k : Nat) :
    ((runLoop hashFn { tracking := T0 } (pairs.take k)).successful +
      (runLoop hashFn { tracking := T0 } (pairs.take k)).failed ≤
      (runLoop hashFn { tracking := T0 } (pairs.take k)).processed) ∧
    (runLoop hashFn { tracking := T0 } (pairs.take k)).processed =
      (pairs.take k).length ∧
    (runLoop hashFn { tracking := T0 } (pairs.take k)).processed ≤
      pairs.length := by
  refine ⟨runLoop_counters_le hashFn (pairs.take k) _ (by simp), ?_, ?_⟩
  · simpa using runLoop_processed hashFn (pairs.take k) { tracking := T0 }
  · rw [runLoop_processed hashFn (pairs.take k) { tracking := T0 }]
    simp [List.length_take_le k pairs]

/-- C1, counterexample.  A single fetched document whose content hash already
has a `completed` tracking record is dedup-skipped: after it
`processedDocuments = 1` but `successfulDocuments + failedDocuments = 0`, so
the claimed equality is false at this input. -/
theorem C1_counterexample :
    (runLoop (fun s => s) { tracking := [("t c", "completed")] }
        [(⟨"1", "t", "c"⟩, .success)]).processed ≠
      (runLoop (fun s => s) { tracking := [("t c", "completed")] }
          [(⟨"1", "t", "c"⟩, .success)]).successful +
        (runLoop (fun s => s) { tracking := [("t c", "completed")] }
            [(⟨"1", "t", "c"⟩, .success)]).failed := by
  decide

/-! ### Dedup behaviour of the per-document loop (C2) -/

theorem track_document_mem (tr : List (String × String)) (h : String) :
    (track_document tr h).any (fun r => r.1 == h) = true := by
  unfold track_document
  split
  · assumption
  · simp

theorem completed_track (tr : List (String × String)) (h h' : String)
    (hc : is_document_processed tr h' = true) :
    is_document_processed (track_document tr h) h' = true := by
  unfold track_document
  split
  · exact hc
  · unfold is_document_processed at *
    simp only [List.any_append, hc, Bool.true_or]

theorem completed_mark_self (tr : List (String × String)) (h : String)
    (hex : tr.any (fun r => r.1 == h) = true) :
    is_document_processed (mark_document_processed tr h "completed") h = true := by
  unfold is_document_processed mark_document_processed
  simp only [List.any_eq_true] at hex ⊢
  obtain ⟨r, hr, he⟩ := hex
  refine ⟨(r.1, "completed"), List.mem_map.2 ⟨r, hr, by simp [he]⟩, by simp [he]⟩

theorem completed_mark_mono (tr : List (String × String)) (h h' : String)
    (hc : is_document_processed tr h' = true) :
    is_document_processed (mark_document_processed tr h "completed") h' = true := by
  unfold is_document_processed mark_document_processed at *
  simp only [List.any_eq_true] at hc ⊢
  obtain ⟨r, hr, he⟩ := hc
  simp only [Bool.and_eq_true, beq_iff_eq] at he
  by_cases hrh : (r.1 == h) = true
  · exact ⟨(r.1, "completed"), List.mem_map.2 ⟨r, hr, by simp [hrh]⟩, by simp [he.1]⟩
  · refine ⟨r, List.mem_map.2 ⟨r, hr, by simp [hrh]⟩, by simp [he.1, he.2]⟩

theorem processDoc_completed_mono (hashFn : String → String) (st : LoopState)
    (d : SrcDoc) (o : DocOutcome) (h' : String) (ho : o ≠ .failure)
    (hc : is_document_processed st.tracking h' = true) :
    is_document_processed (processDoc hashFn st d o).tracking h' = true := by
  unfold processDoc
  split
  · exact hc
  · cases o with
    | targetExists => exact completed_mark_mono _ _ _ (completed_track _ _ _ hc)
    | success => exact completed_mark_mono _ _ _ (completed_track _ _ _ hc)
    | failure => exact absurd rfl ho

theorem processDoc_completed_self (hashFn : String → String) (st : LoopState)
    (d : SrcDoc) (o : DocOutcome) (ho : o ≠ .failure) :
    is_document_processed (processDoc hashFn st d o).tracking
      (docHash hashFn d) = true := by
  unfold processDoc
  split
  · assumption
  · cases o with
    | targetExists => exact completed_mark_self _ _ (track_document_mem _ _)
    | success => exact completed_mark_self _ _ (track_document_mem _ _)
    | failure => exact absurd rfl ho

theorem runLoop_completed_mono (hashFn : String → String)
    (pairs : List (SrcDoc × DocOutcome)) (h' : String) :
    ∀ st : LoopState, (∀ p ∈ pairs, p.2 ≠ DocOutcome.failure) →
      is_document_processed st.tracking h' = true →
      is_document_processed (runLoop hashFn st pairs).tracking h' = true := by
  induction pairs with
  | nil => intro st _ hc; simpa [runLoop] using hc
  | cons p rest ih =>
    intro st hok hc
    simp only [runLoop, List.foldl_cons]
    exact ih (processDoc hashFn st p.1 p.2) (fun q hq => hok q (by simp [hq]))
      (processDoc_completed_mono hashFn st p.1 p.2 h' (hok p (by simp)) hc)

theorem runLoop_all_completed (hashFn : String → String)
    (pairs : List (SrcDoc × DocOutcome)) :
    ∀ st : LoopState, (∀ p ∈ pairs, p.2 ≠ DocOutcome.failure) →
      ∀ p ∈ pairs,
        is_document_processed (runLoop hashFn st pairs).tracking
          (docHash hashFn p.1) = true := by
  induction pairs with
  | nil => intro st _ p hp; simp at hp
  | cons q rest ih =>
    intro st hok p hp
    rcases List.mem_cons.1 hp with hpq | hpr
    · subst hpq
      simp only [runLoop, List.foldl_cons]
      exact runLoop_completed_mono hashFn rest _ _
        (fun r hr => hok r (by simp [hr]))
        (processDoc_completed_self hashFn st p.1 p.2 (hok p (by simp)))
    · simp only [runLoop, List.foldl_cons]
      exact ih (processDoc hashFn st q.1 q.2)
        (fun r hr => hok r (by simp [hr])) p hpr

theorem runLoop_skips_completed (hashFn : String → String)
    (pairs : List (SrcDoc × DocOutcome)) :
    ∀ st : LoopState,
      (∀ p ∈ pairs, is_document_processed st.tracking (docHash hashFn p.1) = true) →
      runLoop hashFn st pairs = { st with processed := st.processed + pairs.length } := by
  induction pairs with
  | nil => intro st _; simp [runLoop]
  | cons p rest ih =>
    intro st hall
    have hskip : processDoc hashFn st p.1 p.2 =
        { st with processed := st.processed + 1 } := by
      unfold processDoc
      rw [if_pos (hall p (by simp))]
    simp only [runLoop, List.foldl_cons] at *
    rw [hskip, ih { st with processed := st.processed + 1 }
      (fun q hq => hall q (by simp [hq]))]
    simp [Nat.add_assoc, Nat.add_comm 1]

/-- C2.  CORRECTED.  A document whose hash has a prior `completed` tracking
record is indeed skipped with no sink write and no tracking change — but it
is NOT counted as a success (see `C2_counterexample`).  For any hash
function: if a first run records no failures, then a second run over the
same documents (with any outcomes, which are never consulted) performs zero
sink writes, counts zero successes and zero failures, increments only
`processedDocuments`, and leaves the tracking table unchanged. -/
theorem C2_dedup_second_run (hashFn : String → String)
    (T0 : List (String × String)) (pairs1 pairs2 : List (SrcDoc × DocOutcome))
    (hdocs : pairs2.map (fun p => p.1) = pairs1.map (fun p => p.1))
    (hok : ∀ p ∈ pairs1, p.2 ≠ DocOutcome.failure) :
    (runLoop hashFn
        { tracking := (runLoop hashFn { tracking := T0 } pairs1).tracking }
        pairs2).sinkWrites = 0 ∧
    (runLoop hashFn
        { tracking := (runLoop hashFn { tracking := T0 } pairs1).tracking }
        pairs2).successful = 0 ∧
    (runLoop hashFn
        { tracking := (runLoop hashFn { tracking := T0 } pairs1).tracking }
        pairs2).failed = 0 ∧
    (runLoop hashFn
        { tracking := (runLoop hashFn { tracking := T0 } pairs1).tracking }
        pairs2).processed = pairs2.length ∧
    (runLoop hashFn
        { tracking := (runLoop hashFn { tracking := T0 } pairs1).tracking }
        pairs2).tracking = (runLoop hashFn { tracking := T0 } pairs1).tracking := by
  have hall : ∀ p ∈ pairs2,
      is_document_processed
        (runLoop hashFn { tracking := T0 } pairs1).tracking
        (docHash hashFn p.1) = true := by
    intro p hp
    have hmem : p.1 ∈ pairs1.map (fun q => q.1) := by
      rw [← hdocs]; exact List.mem_map.2 ⟨p, hp, rfl⟩
    obtain ⟨q, hq, hqe⟩ := List.mem_map.1 hmem
    have := runLoop_all_completed hashFn pairs1 { tracking := T0 } hok q hq
    rw [hqe] at this
    exact this
  rw [runLoop_skips_completed hashFn pairs2
    { tracking := (runLoop hashFn { tracking := T0 } pairs1).tracking } hall]
  simp

/-- C2, counterexample.  First run: one document, successfully written to the
sink and tracked `completed`.  Second run over the identical fetch: the
document is dedup-skipped with zero sink writes as claimed, but
`successfulDocuments` stays 0, not 1 — the skip is not "counted as a
success". -/
theorem C2_counterexample :
    (runLoop (fun s => s)
        { tracking := (runLoop (fun s => s) { tracking := [] }
            [(⟨"1", "t", "c"⟩, .success)]).tracking }
        [(⟨"1", "t", "c"⟩, .success)]).successful = 0 ∧
    (runLoop (fun s => s)
        { tracking := (runLoop (fun s => s) { tracking := [] }
            [(⟨"1", "t", "c"⟩, .success)]).tracking }
        [(⟨"1", "t", "c"⟩, .success)]).sinkWrites = 0 ∧
    (runLoop (fun s => s)
        { tracking := (runLoop (fun s => s) { tracking := [] }
            [(⟨"1", "t", "c"⟩, .success)]).tracking }
        [(⟨"1", "t", "c"⟩, .success)]).processed = 1 := by
  decide

/-- C2, witness for `C2_dedup_second_run` at a concrete input. -/
theorem C2_witness :
    (runLoop (fun s => s)
        { tracking := (runLoop (fun s => s) { tracking := [] }
            [(⟨"2", "u", "v"⟩, .success)]).tracking }
        [(⟨"2", "u", "v"⟩, .failure)]).sinkWrites = 0 ∧
    (runLoop (fun s => s)
        { tracking := (runLoop (fun s => s) { tracking := [] }
            [(⟨"2", "u", "v"⟩, .success)]).tracking }
        [(⟨"2", "u", "v"⟩, .failure)]).successful = 0 ∧
    (runLoop (fun s => s)
        { tracking := (runLoop (fun s => s) { tracking := [] }
            [(⟨"2", "u", "v"⟩, .success)]).tracking }
        [(⟨"2", "u", "v"⟩, .failure)]).failed = 0 ∧
    (runLoop (fun s => s)
        { tracking := (runLoop (fun s => s) { tracking := [] }
            [(⟨"2", "u", "v"⟩, .success)]).tracking }
        [(⟨"2", "u", "v"⟩, .failure)]).processed =
      [(((⟨"2", "u", "v"⟩ : SrcDoc), DocOutcome.failure))].length ∧
    (runLoop (fun s => s)
        { tracking := (runLoop (fun s => s) { tracking := [] }
            [(⟨"2", "u", "v"⟩, .success)]).tracking }
        [(⟨"2", "u", "v"⟩, .failure)]).tracking =
      (runLoop (fun s => s) { tracking := [] }
          [(⟨"2", "u", "v"⟩, .success)]).tracking :=
  C2_dedup_second_run (fun s => s) [] [(⟨"2", "u", "v"⟩, .success)]
    [(⟨"2", "u", "v"⟩, .failure)] (by decide) (by decide)

/-! ### Cancellation (C3) -/

set_option maxRecDepth 4000 in
/-- C3.  CODE BUG EVIDENCE.  The document loop of
`ingest_documents_from_source` contains no read of the job's status, even
though the cancel endpoint's docstring (api/main.py line 648) says "The
worker will check this status and stop processing".  A 100-document job with
an external cancellation request landing at the document-40 boundary
processes all 100 documents, sends all 100 to the sink, and its final status
write leaves `status='completed'` — not `cancelled` with at most 41
processed, as the claim requires. -/
theorem C3_no_cancellation_check :
    (runWithExternalCancel (fun s => s) [] hundredDocs 40).status = "completed" ∧
    (runWithExternalCancel (fun s => s) [] hundredDocs 40).processed = 100 ∧
    (runWithExternalCancel (fun s => s) [] hundredDocs 40).sinkWrites = 100 ∧
    (runWithExternalCancel (fun s => s) [] hundredDocs 40).total_documents = 100 := by
  decide

/-! ### Rate limiter shared-deque eviction (C4) -/

/-- C4.  CODE BUG EVIDENCE.  Configure `requests_per_minute=100` and
`requests_per_hour=2` and record requests at t=100, t=200 and t=3599.  At
now=3600 all three recorded requests lie within the last hour (first
conjunct) and the hour cap is 2, so per the claim `waitIfNeeded` must return
a positive wait; but `_calculate_wait_time` returns 0 (second conjunct),
because the minute-window check evicted t=100 and t=200 from the single
shared deque before the hour-window check ran.  With only the hour cap
configured the same state yields the claimed wait of 100 seconds until the
oldest request exits the hour window (third conjunct). -/
theorem C4_shared_deque_eviction_bug :
    (record_request 3599 (record_request 200 (record_request 100
        {}))).request_history = [100, 200, 3599] ∧
    (∀ t ∈ [(100 : ℚ), 200, 3599], 3600 - (3600 : ℚ) ≤ t) ∧
    (calculate_wait_time 3600
        { requests_per_minute := some 100, requests_per_hour := some 2 }
        (record_request 3599 (record_request 200 (record_request 100 {})))).1
      = 0 ∧
    (calculate_wait_time 3600 { requests_per_hour := some 2 }
        (record_request 3599 (record_request 200 (record_request 100 {})))).1
      = 100 := by
  refine ⟨by simp [record_request], ?_, ?_, ?_⟩
  · intro t ht
    fin_cases ht <;> norm_num
  · simp [calculate_wait_time, check_time_window, record_request, List.dropWhile]
    norm_num
  · simp [calculate_wait_time, check_time_window, record_request, List.dropWhile]
    norm_num

/-! ### Strategy selection (C7) -/

/-- C7.  CORRECTED.  Strategy selection is a pure function of the content
length against the default thresholds 2000/5000/15000 exactly as claimed,
and for `0 < length ≤ small` `chunk_document` returns exactly one chunk
whose content is the whole document — but at length 0 the claim fails:
`chunk_document` returns the empty list (see `C7_counterexample`). -/
theorem C7_strategy_selection (content : List Char) (doc : PyDocument)
    (cs ov : Option Nat) :
    (content.length ≤ 2000 → determine_strategy {} content = "none") ∧
    (2000 < content.length → content.length ≤ 5000 →
      determine_strategy {} content = "standard") ∧
    (5000 < content.length → content.length ≤ 15000 →
      determine_strategy {} content = "recursive") ∧
    (15000 < content.length → determine_strategy {} content = "multi_level") ∧
    (0 < doc.content.length → doc.content.length ≤ 2000 →
      chunk_document {} doc cs ov =
        [{ id := doc.id ++ "_chunk_0", content := doc.content, chunk_index := 0,
           total_chunks := some 1, chunking_strategy := "none",
           source_document_id := doc.id }]) := by
  refine ⟨?_, ?_, ?_, ?_, ?_⟩
  · intro h
    unfold determine_strategy
    rw [if_pos h]
  · intro h1 h2
    unfold determine_strategy
    rw [if_neg (Nat.not_le.2 h1), if_pos h2]
  · intro h1 h2
    unfold determine_strategy
    rw [if_neg (Nat.not_le.2 (by omega : (2000 : Nat) < content.length)),
      if_neg (Nat.not_le.2 h1), if_pos h2]
  · intro h1
    unfold determine_strategy
    rw [if_neg (Nat.not_le.2 (by omega : (2000 : Nat) < content.length)),
      if_neg (Nat.not_le.2 (by omega : (5000 : Nat) < content.length)),
      if_neg (Nat.not_le.2 h1)]
  · intro h1 h2
    have hne : doc.content ≠ [] := by
      intro he
      rw [he] at h1
      simp at h1
    have hstr : determine_strategy {} doc.content = "none" := by
      unfold determine_strategy
      rw [if_pos h2]
    unfold chunk_document
    rw [if_neg hne]
    simp [hstr, create_single_chunk]

/-- C7, counterexample.  A document with empty content has length
`0 ≤ 2000`, so per the claim `chunk_document` should return exactly one
chunk equal to the whole document; the source returns no chunks at all. -/
theorem C7_counterexample :
    chunk_document {} ⟨"d", []⟩ none none = [] ∧
    (chunk_document {} ⟨"d", []⟩ none none).length ≠ 1 := by
  decide

/-- C7, witness for `C7_strategy_selection` at a concrete input. -/
theorem C7_witness :
    determine_strategy {} (strChars "a") = "none" ∧
    chunk_document {} ⟨"d", strChars "a"⟩ none none =
      [{ id := "d" ++ "_chunk_0", content := strChars "a", chunk_index := 0,
         total_chunks := some 1, chunking_strategy := "none",
         source_document_id := "d" }] := by
  have h := C7_strategy_selection (strChars "a") ⟨"d", strChars "a"⟩ none none
  exact ⟨h.1 (by decide), h.2.2.2.2 (by decide) (by decide)⟩

/-! ### Schedule parsing (C8) -/

/-- C8.  CORRECTED.  `parse_schedule_config` does NOT reject unrecognized
schedule strings with an error: every string that is none of the recognized
formats and carries neither an `interval:` nor a `cron:` prefix reaches the
warning line and returns `None` — the very value returned for `"manual"`,
which `add_source_schedule` treats as "no schedule".  (Only a malformed
count inside a well-suffixed `interval:` string raises, via `int()`.) -/
theorem C8_unknown_formats_fall_back (s : String) (h0 : s ≠ "")
    (h1 : s ≠ "manual") (h2 : s ≠ "hourly") (h3 : s ≠ "daily")
    (h4 : s ≠ "weekly") (h5 : pyStartsWith "interval:".data s.data = false)
    (h6 : pyStartsWith "cron:".data s.data = false) :
    parse_schedule_config s = .ok none := by
  unfold parse_schedule_config parseScheduleRest
  simp [h0, h1, h2, h3, h4, h5, h6]

/-- C8, counterexample.  The unknown schedule string `"yearly"` is not
rejected with an error: it parses to the same no-schedule value as
`"manual"`. -/
theorem C8_counterexample :
    parse_schedule_config "yearly" = .ok none ∧
    parse_schedule_config "manual" = .ok none :=
  ⟨rfl, rfl⟩

/-- C8, witness for `C8_unknown_formats_fall_back` at a concrete input. -/
theorem C8_witness : parse_schedule_config "every_fortnight" = .ok none :=
  C8_unknown_formats_fall_back "every_fortnight" (by decide) (by decide)
    (by decide) (by decide) (by decide) (by decide) (by decide)

/-! ### Chunk index / total invariant (C6) -/

theorem indexedFrom_nil (k : Nat) : IndexedFrom k ([] : List Chunk) := by
  intro i h
  simp at h

theorem indexedFrom_singleton (k : Nat) (c : Chunk) (hc : c.chunk_index = k) :
    IndexedFrom k [c] := by
  intro i h
  simp only [List.length_singleton, Nat.lt_one_iff] at h
  subst h
  simpa using hc

theorem indexedFrom_cons (k : Nat) (c : Chunk) (l : List Chunk)
    (hc : c.chunk_index = k) (hl : IndexedFrom (k + 1) l) :
    IndexedFrom k (c :: l) := by
  intro i h
  cases i with
  | zero => simpa using hc
  | succ j =>
    have hj : j < l.length := by simpa using h
    rw [List.getElem_cons_succ]
    rw [hl j hj]
    omega

theorem indexedFrom_append (k : Nat) (a b : List Chunk)
    (ha : IndexedFrom k a) (hb : IndexedFrom (k + a.length) b) :
    IndexedFrom k (a ++ b) := by
  intro i h
  rcases Nat.lt_or_ge i a.length with hi | hi
  · rw [List.getElem_append_left hi]
    exact ha i hi
  · have hib : i - a.length < b.length := by
      simp only [List.length_append] at h
      omega
    rw [List.getElem_append_right hi]
    rw [hb (i - a.length) hib]
    omega

theorem standardAux_indexed_fuel (docId : String) (content : List Char)
    (size ov : Nat) :
    ∀ (n start idx : Nat), content.length - start ≤ n →
      IndexedFrom idx (standardAux docId content size ov start idx) := by
  intro n
  induction n with
  | zero =>
    intro start idx hle
    rw [standardAux]
    split
    · omega
    · exact indexedFrom_nil _
  | succ m ih =>
    intro start idx hle
    rw [standardAux]
    split
    · rename_i hcond
      exact indexedFrom_cons _ _ _ rfl (ih _ _ (by omega))
    · exact indexedFrom_nil _

theorem standardAux_indexed (docId : String) (content : List Char)
    (size ov start idx : Nat) :
    IndexedFrom idx (standardAux docId content size ov start idx) :=
  standardAux_indexed_fuel docId content size ov (content.length - start)
    start idx (Nat.le_refl _)

theorem recursiveAux_indexed (docId : String) (size ov : Nat) :
    ∀ (paras : List (List Char)) (current : List Char) (idx : Nat),
      IndexedFrom idx (recursiveAux docId size ov paras current idx) := by
  intro paras
  induction paras with
  | nil =>
    intro current idx
    simp only [recursiveAux]
    split
    · exact indexedFrom_singleton _ _ rfl
    · exact indexedFrom_nil _
  | cons para rest ih =>
    intro current idx
    simp only [recursiveAux]
    split
    · exact indexedFrom_cons _ _ _ rfl (ih _ _)
    · exact ih _ _

theorem renumber_length (docId : String) (k : Nat) (scs : List Chunk) :
    (renumber docId k scs).length = scs.length := by
  simp [renumber]

theorem renumber_indexed (docId : String) (k : Nat) (scs : List Chunk) :
    IndexedFrom k (renumber docId k scs) := by
  intro i h
  rw [renumber_length] at h
  unfold renumber
  rw [List.getElem_map, List.getElem_enum]

theorem multiAux_indexed (docId : String) (size ov : Nat) :
    ∀ (sections : List (List Char)) (idx : Nat),
      IndexedFrom idx (multiAux docId size ov sections idx) := by
  intro sections
  induction sections with
  | nil => intro idx; exact indexedFrom_nil _
  | cons sec rest ih =>
    intro idx
    simp only [multiAux]
    split
    · exact ih idx
    · split
      · refine indexedFrom_append _ _ _ (renumber_indexed _ _ _) ?_
        rw [renumber_length]
        exact ih _
      · exact indexedFrom_cons _ _ _ rfl (ih _)

theorem setTotals_ok (l : List Chunk) (hl : IndexedFrom 0 l) :
    ChunkListOK (setTotals l) := by
  intro i h
  have hlen : (setTotals l).length = l.length := by simp [setTotals]
  have hi : i < l.length := by rwa [hlen] at h
  unfold setTotals
  rw [List.getElem_map]
  refine ⟨by simp, ?_⟩
  simpa using hl i hi

/-- C6.  CONFIRMED.  For every chunker configuration, every document and
every chunk-size/overlap override, each chunk returned by `chunk_document`
carries `total_chunks` equal to the length of the returned list and the
`chunk_index` values form the contiguous sequence `0..N-1` in list order —
under all four strategies.  The hypothesis `overlap < chunk_size` (on the
effective standard-strategy parameters) is the termination precondition of
the standard sliding-window loop: without it the source never returns. -/
theorem C6_chunk_list_invariant (ck : AdaptiveChunker) (doc : PyDocument)
    (cs ov : Option Nat)
    (h : pyOrNat ov ck.overlap < pyOrNat cs SMALL_CHUNK_SIZE) :
    ChunkListOK (chunk_document ck doc cs ov) := by
  unfold chunk_document
  split
  · intro i hi; simp at hi
  · split
    · intro i hi
      simp only [create_single_chunk, List.length_singleton, Nat.lt_one_iff] at hi
      subst hi
      exact ⟨rfl, rfl⟩
    · split
      · unfold standard_chunking
        exact setTotals_ok _ (standardAux_indexed _ _ _ _ _ _)
      · split
        · unfold recursive_chunking
          exact setTotals_ok _ (recursiveAux_indexed _ _ _ _ _ _)
        · unfold multi_level_chunking
          exact setTotals_ok _ (multiAux_indexed _ _ _ _ _)

/-- C6, witness for `C6_chunk_list_invariant` at a concrete input (a
three-chunk standard split). -/
theorem C6_witness :
    ChunkListOK (chunk_document
      { small_threshold := 2, medium_threshold := 9, large_threshold := 20,
        overlap := 1 }
      ⟨"w", strChars "abc"⟩ (some 2) (some 1)) :=
  C6_chunk_list_invariant _ _ _ _ (by decide)

/-! ### Standard sliding-window chunking (C10) -/

theorem chunkTextAux_getq (text : List Char) (size ov : Nat) (hov : ov < size) :
    ∀ (n start : Nat), text.length - start ≤ n → ∀ i,
      (chunkTextAux text size ov start).get? i =
        if start + i * (size - ov) < text.length
        then some ((text.drop (start + i * (size - ov))).take size)
        else none := by
  intro n
  induction n with
  | zero =>
    intro start hle i
    rw [chunkTextAux]
    rw [dif_neg (by omega)]
    rw [if_neg (by omega)]
    rfl
  | succ m ih =>
    intro start hle i
    rw [chunkTextAux]
    split
    · rename_i hcond
      cases i with
      | zero =>
        simp only [List.get?_cons_zero, Nat.zero_mul, Nat.add_zero]
        rw [if_pos hcond.1]
      | succ j =>
        simp only [List.get?_cons_succ]
        rw [ih (start + (size - ov)) (by omega) j]
        rw [Nat.succ_mul]
        have harith : start + (size - ov) + j * (size - ov) =
            start + (j * (size - ov) + (size - ov)) := by omega
        rw [harith]
    · rename_i hcond
      rw [if_neg (by omega)]
      rfl

theorem chunkTextAux_dropJoin (text : List Char) (size ov : Nat)
    (hov : ov < size) :
    ∀ (n start : Nat), text.length - start ≤ n →
      ((chunkTextAux text size ov start).map (fun l => l.drop ov)).flatten =
        text.drop (start + ov) := by
  intro n
  induction n with
  | zero =>
    intro start hle
    rw [chunkTextAux]
    rw [dif_neg (by omega)]
    simp [List.drop_eq_nil_of_le (by omega : text.length ≤ start + ov)]
  | succ m ih =>
    intro start hle
    rw [chunkTextAux]
    split
    · rename_i hcond
      simp only [List.map_cons, List.flatten_cons]
      rw [ih (start + (size - ov)) (by omega)]
      rw [List.drop_take, List.drop_drop]
      have h2 : List.drop (start + (size - ov) + ov) text =
          List.drop (size - ov) (List.drop (start + ov) text) := by
        rw [List.drop_drop]
        congr 1
        omega
      rw [h2]
      exact List.take_append_drop _ _
    · rename_i hcond
      simp [List.drop_eq_nil_of_le (by omega : text.length ≤ start + ov)]

theorem standardAux_contents (docId : String) (content : List Char)
    (size ov : Nat) :
    ∀ (n start idx : Nat), content.length - start ≤ n →
      (standardAux docId content size ov start idx).map (fun c => c.content) =
        chunkTextAux content size ov start := by
  intro n
  induction n with
  | zero =>
    intro start idx hle
    rw [standardAux, chunkTextAux]
    rw [dif_neg (by omega), dif_neg (by omega)]
    rfl
  | succ m ih =>
    intro start idx hle
    rw [standardAux, chunkTextAux]
    split
    · rename_i hcond
      simp only [List.map_cons]
      rw [ih (start + (size - ov)) (idx + 1) (by omega)]
    · rfl

/-- C10.  CONFIRMED.  For every text and every `0 ≤ overlap < chunkSize`:
chunk `i` of `chunk_text` is exactly
`content[i*(chunkSize-overlap) : i*(chunkSize-overlap)+chunkSize]`;
concatenating the first chunk with every later chunk minus its first
`overlap` characters reconstructs the text exactly; and the chunk contents
produced by `_standard_chunking` coincide with `chunk_text`. -/
theorem C10_standard_window (text : List Char) (size ov : Nat)
    (hov : ov < size) :
    (∀ i, (chunk_text text size ov).get? i =
      if i * (size - ov) < text.length
      then some ((text.drop (i * (size - ov))).take size) else none) ∧
    joinOverlap ov (chunk_text text size ov) = text ∧
    (∀ doc : PyDocument,
      (standard_chunking doc size ov).map (fun c => c.content) =
        chunk_text doc.content size ov) := by
  refine ⟨?_, ?_, ?_⟩
  · intro i
    have h := chunkTextAux_getq text size ov hov (text.length - 0) 0
      (Nat.le_refl _) i
    simpa [chunk_text] using h
  · unfold chunk_text
    rw [chunkTextAux]
    split
    · rename_i hcond
      simp only [joinOverlap]
      rw [chunkTextAux_dropJoin text size ov hov
        (text.length - (0 + (size - ov))) (0 + (size - ov)) (Nat.le_refl _)]
      have harith : 0 + (size - ov) + ov = size := by omega
      rw [harith]
      simp [List.take_append_drop size text]
    · rename_i hcond
      have htext : text = [] := by
        by_contra hne
        exact hcond ⟨List.length_pos.2 hne, hov⟩
      subst htext
      rfl
  · intro doc
    unfold standard_chunking setTotals chunk_text
    rw [List.map_map]
    exact standardAux_contents doc.id doc.content size ov
      (doc.content.length - 0) 0 0 (Nat.le_refl _)

/-- C10, witness for `C10_standard_window` at a concrete input. -/
theorem C10_witness :
    joinOverlap 1 (chunk_text (strChars "abcde") 3 1) = strChars "abcde" :=
  (C10_standard_window (strChars "abcde") 3 1 (by decide)).2.1

/-! ### Multi-level chunking facts: no-split texts (towards C5) -/

theorem dropWhile_eq_self_of_all {p : Char → Bool} (s : List Char)
    (h : ∀ c ∈ s, p c = false) : s.dropWhile p = s := by
  cases s with
  | nil => rfl
  | cons c rest =>
    rw [List.dropWhile_cons, if_neg (by simp [h c (List.mem_cons_self c rest)])]

theorem pyStrip_of_nospace (s : List Char)
    (h : ∀ c ∈ s, isPySpace c = false) : pyStrip s = s := by
  unfold pyStrip
  rw [dropWhile_eq_self_of_all s h,
    dropWhile_eq_self_of_all s.reverse (fun c hc => h c (List.mem_reverse.1 hc)),
    List.reverse_reverse]

theorem plainChar_facts (c : Char) (hc : plainChar c = true) :
    isDigitChar c = false ∧ isSecClassChar c = false ∧ isPySpace c = false ∧
    (c == '\n') = false := by
  have h1 : isDigitChar c = false ∧ isSecClassChar c = false := by
    simpa [plainChar, Bool.or_eq_false_iff] using hc
  have h2 : isPySpace c = false := by
    have h3 := h1.2
    simp only [isSecClassChar, Bool.or_eq_false_iff] at h3
    exact h3.2
  refine ⟨h1.1, h1.2, h2, ?_⟩
  cases hq : c == '\n' with
  | false => rfl
  | true =>
    rw [beq_iff_eq] at hq
    rw [hq] at h2
    exact absurd h2 (by decide)

theorem matchAlts_none (c : Char) (rest : List Char)
    (hdig : isDigitChar c = false) (hcls : isSecClassChar c = false) :
    matchAlts (c :: rest) = none := by
  simp [matchAlts, alt1Len, alt2Len, List.takeWhile_cons, hdig, hcls]

theorem secFind_none (s : List Char) (h : ∀ c ∈ s, plainChar c = true) :
    ∀ ac, secFind ac s = none := by
  induction s with
  | nil => intro ac; rfl
  | cons c rest ih =>
    intro ac
    have hf := plainChar_facts c (h c (List.mem_cons_self c rest))
    have hrest := ih (fun x hx => h x (List.mem_cons_of_mem c hx))
    simp [secFind, matchAlts_none c rest hf.1 hf.2.1, hf.2.2.2, hrest false]

theorem paraFind_none (s : List Char) (h : ∀ c ∈ s, plainChar c = true) :
    paraFind s = none := by
  induction s with
  | nil => rfl
  | cons c rest ih =>
    have hf := plainChar_facts c (h c (List.mem_cons_self c rest))
    have hrest := ih (fun x hx => h x (List.mem_cons_of_mem c hx))
    simp [paraFind, paraMatchLen, hf.2.2.2, hrest]

theorem secSplit_plain (s : List Char) (h : ∀ c ∈ s, plainChar c = true) :
    secSplit s = [s] := by
  unfold secSplit
  rw [secSplitGo, secFind_none s h true]

theorem paraSplit_plain (s : List Char) (h : ∀ c ∈ s, plainChar c = true) :
    paraSplit s = [s] := by
  unfold paraSplit
  rw [paraSplitGo, paraFind_none s h]

theorem replicate_a_plain (n : Nat) :
    ∀ c ∈ List.replicate n 'a', plainChar c = true := by
  intro c hc
  rw [List.eq_of_mem_replicate hc]
  decide

theorem recursiveAux_single (docId : String) (size ov : Nat) (s : List Char)
    (hne : s ≠ []) (hstrip : pyStrip s = s) :
    recursiveAux docId size ov [s] [] 0 = [recChunk docId 0 s] := by
  simp only [recursiveAux]
  rw [if_neg (by simp)]
  have harg : (if ([] : List Char) ≠ [] then ([] : List Char) ++ '\n' :: '\n' :: s
      else s) = s := by simp
  rw [harg]
  rw [if_pos hne, hstrip]

/-- On a text over the large threshold with no section headers and no blank
lines (here `n` letters `a`), multi-level chunking produces exactly one
chunk containing the entire text: the size of a chunk is not capped. -/
theorem multilevel_single_giant_chunk (n : Nat) (hn : 15000 < n) :
    (chunk_document {} ⟨"d", List.replicate n 'a'⟩ (some 2000) none).map
      (fun c => c.content.length) = [n] := by
  have hplain := replicate_a_plain n
  have hspace : ∀ c ∈ List.replicate n 'a', isPySpace c = false :=
    fun c hc => (plainChar_facts c (hplain c hc)).2.2.1
  have hlen : (List.replicate n 'a').length = n := List.length_replicate n 'a'
  have hne : List.replicate n 'a' ≠ [] := by
    intro he
    rw [he] at hlen
    simp at hlen
    omega
  have hstrip := pyStrip_of_nospace _ hspace
  have hsec := secSplit_plain _ hplain
  have hpara := paraSplit_plain _ hplain
  unfold chunk_document
  rw [if_neg hne]
  have hstrat : determine_strategy {} (List.replicate n 'a') = "multi_level" := by
    unfold determine_strategy
    rw [hlen]
    rw [if_neg (by show ¬ n ≤ 2000; omega), if_neg (by show ¬ n ≤ 5000; omega),
      if_neg (by show ¬ n ≤ 15000; omega)]
  rw [hstrat]
  rw [if_neg (by decide), if_neg (by decide), if_neg (by decide)]
  unfold multi_level_chunking
  rw [hsec]
  simp only [multiAux]
  rw [if_neg (by rw [hstrip]; exact hne)]
  rw [if_pos (by rw [hlen]; simp [pyOrNat]; omega)]
  rw [List.append_nil]
  unfold recursive_chunking
  rw [hpara]
  rw [recursiveAux_single _ _ _ _ hne hstrip]
  simp [setTotals, renumber, recChunk, hlen]

/-- C5, counterexample.  The document of 15001 letters `a` is over the large
threshold; with `chunk_size = 2000` the claim caps every chunk (a section
over `2 x 2000` is recursively re-chunked), yet the output is a single chunk
of all 15001 characters — and `multilevel_single_giant_chunk` shows the
same for every `n > 15000`, so no fixed bound exists. -/
theorem C5_counterexample :
    (chunk_document {} ⟨"d", List.replicate 15001 'a'⟩ (some 2000) none).map
      (fun c => c.content.length) = [15001] ∧ 2 * 2000 < 15001 :=
  ⟨multilevel_single_giant_chunk 15001 (by norm_num), by norm_num⟩

/-! ### The bound multi-level chunking does satisfy (C5, amended) -/

theorem listMaxNat_le_of_mem {x : Nat} {l : List Nat} (hx : x ∈ l) :
    x ≤ listMaxNat l := by
  induction l with
  | nil => simp at hx
  | cons a t ih =>
    rcases List.mem_cons.1 hx with rfl | ht
    · exact le_max_left _ _
    · exact le_trans (ih ht) (le_max_right _ _)

theorem pyStrip_length_le (s : List Char) : (pyStrip s).length ≤ s.length := by
  unfold pyStrip
  calc ((s.dropWhile isPySpace).reverse.dropWhile isPySpace).reverse.length
      = ((s.dropWhile isPySpace).reverse.dropWhile isPySpace).length := by
        rw [List.length_reverse]
    _ ≤ (s.dropWhile isPySpace).reverse.length :=
        (List.dropWhile_sublist isPySpace).length_le
    _ = (s.dropWhile isPySpace).length := by rw [List.length_reverse]
    _ ≤ s.length := (List.dropWhile_sublist isPySpace).length_le

theorem pyLastSlice_length_le (ov : Nat) (s : List Char) (hov : ov ≠ 0) :
    (pyLastSlice ov s).length ≤ ov := by
  unfold pyLastSlice
  rw [if_neg hov, List.length_drop]
  omega

theorem recursiveAux_bound (docId : String) (size ov P : Nat) (hov : 0 < ov) :
    ∀ (paras : List (List Char)) (current : List Char) (idx : Nat),
      (∀ p ∈ paras, p.length ≤ P) →
      current.length ≤ max (size + 2) (ov + 2 + P) →
      ∀ c ∈ recursiveAux docId size ov paras current idx,
        c.content.length ≤ max (size + 2) (ov + 2 + P) := by
  intro paras
  induction paras with
  | nil =>
    intro current idx hp hc c hcmem
    simp only [recursiveAux] at hcmem
    split at hcmem
    · rw [List.mem_singleton] at hcmem
      subst hcmem
      exact le_trans (pyStrip_length_le current) hc
    · simp at hcmem
  | cons para rest ih =>
    intro current idx hp hc c hcmem
    have hpara : para.length ≤ P := hp para (List.mem_cons_self _ _)
    have hprest : ∀ p ∈ rest, p.length ≤ P :=
      fun p hpm => hp p (List.mem_cons_of_mem _ hpm)
    simp only [recursiveAux] at hcmem
    split at hcmem
    · rcases List.mem_cons.1 hcmem with rfl | hmem
      · exact le_trans (pyStrip_length_le current) hc
      · refine ih _ _ hprest ?_ c hmem
        split
        · rename_i hlong
          simp only [List.length_append, List.length_cons]
          have hsl := pyLastSlice_length_le ov current (by omega)
          have hmax : ov + 2 + P ≤ max (size + 2) (ov + 2 + P) :=
            le_max_right _ _
          omega
        · exact le_trans hpara
            (le_trans (by omega) (le_max_right (size + 2) (ov + 2 + P)))
    · rename_i hnoclose
      refine ih _ _ hprest ?_ c hcmem
      split
      · rename_i hcur
        simp only [List.length_append, List.length_cons]
        have hfit : current.length + para.length ≤ size := by
          by_contra hgt
          exact hnoclose ⟨by omega, hcur⟩
        have hmax : size + 2 ≤ max (size + 2) (ov + 2 + P) := le_max_left _ _
        omega
      · exact le_trans hpara
          (le_trans (by omega) (le_max_right (size + 2) (ov + 2 + P)))

theorem setTotals_contents (l : List Chunk) :
    (setTotals l).map (fun c => c.content) = l.map (fun c => c.content) := by
  simp [setTotals]

theorem renumber_contents (docId : String) (k : Nat) (scs : List Chunk) :
    (renumber docId k scs).map (fun c => c.content) =
      scs.map (fun c => c.content) := by
  unfold renumber
  rw [List.map_map]
  have h : (scs.enum.map Prod.snd).map (fun c => c.content) =
      scs.map (fun c => c.content) := by
    rw [List.enum_map_snd]
  rw [← h, List.map_map]
  rfl

theorem content_bound_of_mem_map {l : List Chunk} {c : Chunk} {B : Nat}
    (hc : c ∈ l)
    (hb : ∀ x ∈ l.map (fun c => c.content), x.length ≤ B) :
    c.content.length ≤ B :=
  hb c.content (List.mem_map_of_mem _ hc)

theorem multiAux_bound (docId : String) (size ov P : Nat) (hov : 0 < ov) :
    ∀ (sections : List (List Char)) (idx : Nat),
      (∀ sec ∈ sections, ∀ p ∈ paraSplit sec, p.length ≤ P) →
      ∀ c ∈ multiAux docId size ov sections idx,
        c.content.length ≤ max (size * 2) (max (size + 2) (ov + 2 + P)) := by
  intro sections
  induction sections with
  | nil => intro idx hp c hc; simp [multiAux] at hc
  | cons sec rest ih =>
    intro idx hp c hc
    have hpsec : ∀ p ∈ paraSplit sec, p.length ≤ P :=
      hp sec (List.mem_cons_self _ _)
    have hprest : ∀ s ∈ rest, ∀ p ∈ paraSplit s, p.length ≤ P :=
      fun s hs => hp s (List.mem_cons_of_mem _ hs)
    simp only [multiAux] at hc
    split at hc
    · exact ih idx hprest c hc
    · split at hc
      · rcases List.mem_append.1 hc with hren | hrest
        · have hcontent : c.content ∈
              (recursiveAux (docId ++ "_section") size ov (paraSplit sec) [] 0).map
                (fun c => c.content) := by
            have h1 := List.mem_map_of_mem (fun c : Chunk => c.content) hren
            rw [renumber_contents] at h1
            unfold recursive_chunking at h1
            rw [setTotals_contents] at h1
            exact h1
          obtain ⟨c1, hc1, hce⟩ := List.mem_map.1 hcontent
          rw [← hce]
          exact le_trans
            (recursiveAux_bound (docId ++ "_section") size ov P hov
              (paraSplit sec) [] 0 hpsec (by simp) c1 hc1)
            (le_max_right _ _)
        · exact ih _ hprest c hrest
      · rcases List.mem_cons.1 hc with rfl | hmem
        · rename_i hshort
          have : (pyStrip sec).length ≤ size * 2 :=
            le_trans (pyStrip_length_le sec) (by omega)
          exact le_trans this (le_max_left _ _)
        · exact ih _ hprest c hmem

/-- C5.  CORRECTED.  Sections over `2 x chunkSize` ARE recursively
re-chunked, but that does not cap chunk sizes by a fixed bound
(`C5_counterexample`): the recursive splitter only closes a chunk at
blank-line boundaries, so a blank-line-free paragraph enters a chunk whole.
What holds is an input-dependent bound: every chunk produced by
`_multi_level_chunking` is at most
`max (2*chunkSize) (max (chunkSize+2) (overlap+2+P))` characters, where `P`
is the longest blank-line-free paragraph over all sections of the document. -/
theorem C5_multilevel_bound (docId : String) (content : List Char)
    (size ov : Nat) (hov : 0 < ov) :
    ∀ c ∈ multi_level_chunking docId content size ov,
      c.content.length ≤
        max (size * 2) (max (size + 2) (ov + 2 + maxSectionPara content)) := by
  intro c hc
  unfold multi_level_chunking at hc
  have hcontent : c.content ∈
      (multiAux docId size ov (secSplit content) 0).map (fun c => c.content) := by
    have h1 := List.mem_map_of_mem (fun c : Chunk => c.content) hc
    rwa [setTotals_contents] at h1
  obtain ⟨c1, hc1, hce⟩ := List.mem_map.1 hcontent
  rw [← hce]
  refine multiAux_bound docId size ov (maxSectionPara content) hov
    (secSplit content) 0 ?_ c1 hc1
  intro sec hsec p hpm
  have h1 : p.length ≤ listMaxNat ((paraSplit sec).map (fun q => q.length)) :=
    listMaxNat_le_of_mem (List.mem_map_of_mem _ hpm)
  refine le_trans h1 (listMaxNat_le_of_mem ?_)
  exact List.mem_map_of_mem _ hsec

/-- C5, witness for `C5_multilevel_bound` at a concrete input: the first (and
only) chunk of this 8-character document. -/
theorem C5_witness :
    ((multi_level_chunking "d" (strChars "abcdefgh") 2 1).getD 0
        (recChunk "x" 0 [])).content.length ≤
      max (2 * 2) (max (2 + 2) (1 + 2 + maxSectionPara (strChars "abcdefgh"))) :=
  C5_multilevel_bound "d" (strChars "abcdefgh") 2 1 (by decide) _ (by decide)

/-! ### Section-header deletion by multi-level chunking (C9) -/

/-- C9.  CONFIRMED.  `re.split` with the capture-group-free section pattern
drops the matched separators, so section-header text appears in no output
chunk.  Concretely: this 24-character document (over the configured large
threshold 20) contains the header `\n1.\n`, the section split returns
exactly the two surrounding sections, the produced chunks are exactly those
sections, no chunk contains the header text, and the concatenation of all
chunk contents no longer contains the document text. -/
theorem C9_header_text_deleted :
    20 < (strChars "aaaaaaaaaa\n1.\nbbbbbbbbbb").length ∧
    secSplit (strChars "aaaaaaaaaa\n1.\nbbbbbbbbbb") =
      [strChars "aaaaaaaaaa", strChars "bbbbbbbbbb"] ∧
    containsSeq (strChars "\n1.\n") (strChars "aaaaaaaaaa\n1.\nbbbbbbbbbb") = true ∧
    (chunk_document
        { small_threshold := 5, medium_threshold := 10, large_threshold := 20,
          overlap := 2 }
        ⟨"d", strChars "aaaaaaaaaa\n1.\nbbbbbbbbbb"⟩ (some 3) none).map
      (fun c => c.content) = [strChars "aaaaaaaaaa", strChars "bbbbbbbbbb"] ∧
    (∀ c ∈ (chunk_document
        { small_threshold := 5, medium_threshold := 10, large_threshold := 20,
          overlap := 2 }
        ⟨"d", strChars "aaaaaaaaaa\n1.\nbbbbbbbbbb"⟩ (some 3) none),
      containsSeq (strChars "\n1.\n") c.content = false) ∧
    containsSeq (strChars "aaaaaaaaaa\n1.\nbbbbbbbbbb")
      (((chunk_document
          { small_threshold := 5, medium_threshold := 10, large_threshold := 20,
            overlap := 2 }
          ⟨"d", strChars "aaaaaaaaaa\n1.\nbbbbbbbbbb"⟩ (some 3) none).map
        (fun c => c.content)).flatten) = false := by
  decide

end RagFactory
